import Mathlib

/-!
Shallow embedding of the simparse parser-combinator library
(src/include/simparse.hpp) and proofs about its combinators.

A parser in the C++ code is a callable receiving a mutable reference to a
character iterator over a null-terminated character sequence; it returns a
value or throws a `std::runtime_error`, and in either case the iterator keeps
whatever advancement happened before the return or throw.  We model the
cursor as a natural-number position into a `List Char`; dereferencing at or
past the end of the list yields the sentinel character `'\x00'`, exactly as
dereferencing the terminator of a C string does.  A parser is a function
from the input and the cursor position to a result (`Except ParseError α`)
paired with the cursor position afterwards — the pair is returned on failure
too, because a C++ exception propagates while the by-reference iterator keeps
its advanced position.
-/

namespace Simparse

/-- Failure signals thrown by the combinators, one constructor per distinct
`std::runtime_error` message in the source. -/
inductive ParseError : Type
  | endOfString : ParseError
  | conditionUnsatisfied : ParseError
  | stringNotMatched : List Char → ParseError
deriving DecidableEq, Repr

deriving instance DecidableEq for Except

/-- A parser: input sequence and cursor position in, result and cursor
position out.  The position is returned on failure as well, modelling the
mutable iterator that keeps its advancement when an exception propagates. -/
abbrev Parser (α : Type) : Type := List Char → Nat → (Except ParseError α) × Nat

/-- Dereference the cursor: `*str_iter` over a null-terminated sequence.
At or past the end of the stored characters the sentinel `'\x00'` is read. -/
def readChar (input : List Char) (pos : Nat) : Char :=
  input.getD pos '\x00'

/-- `satisfy(cond)` from the source: fail with `endOfString` if the current
character is the sentinel, otherwise advance and return the character when
`cond` holds and fail with `conditionUnsatisfied` (no advancement) when it
does not. -/
def satisfy (cond : Char → Bool) : Parser Char := fun input pos =>
  if readChar input pos = '\x00' then
    (Except.error ParseError.endOfString, pos)
  else
    let s := readChar input pos
    if cond s then
      (Except.ok s, pos + 1)
    else
      (Except.error ParseError.conditionUnsatisfied, pos)

/-- The loop body of `rep`: run the parser the given number of remaining
times, appending each result to the accumulator, stopping at the first
failure with whatever cursor position that failing call left. -/
def repAux (p : Parser (List Char)) (input : List Char) :
    Nat → Nat → List Char → (Except ParseError (List Char)) × Nat
  | 0, pos, acc => (Except.ok acc, pos)
  | n + 1, pos, acc =>
    match p input pos with
    | (Except.ok r, pos') => repAux p input n pos' (acc ++ r)
    | (Except.error e, pos') => (Except.error e, pos')

/-- `rep(n, parser)` from the source: invoke `parser` exactly `n` times,
concatenating the results. -/
def rep (n : Nat) (p : Parser (List Char)) : Parser (List Char) := fun input pos =>
  repAux p input n pos []

/-- The `while (true)` loop of `many`, with explicit fuel: `none` models the
loop still running (divergence) when the fuel is exhausted.  Each successful
call appends its result and continues; the first failure breaks the loop,
keeping the cursor where the failing call left it. -/
def manyAux (p : Parser (List Char)) (input : List Char) :
    Nat → Nat → List Char → Option ((Except ParseError (List Char)) × Nat)
  | 0, _, _ => none
  | fuel + 1, pos, acc =>
    match p input pos with
    | (Except.ok r, pos') => manyAux p input fuel pos' (acc ++ r)
    | (Except.error _, pos') => some (Except.ok acc, pos')

/-- `many(parser)` from the source, fuelled. -/
def many (p : Parser (List Char)) (fuel : Nat) (input : List Char) (pos : Nat) :
    Option ((Except ParseError (List Char)) × Nat) :=
  manyAux p input fuel pos []

/-- `ignore(parser)` from the source: run the parser, discard its value,
return an empty string; failure (with its cursor effect) propagates. -/
def ignore {α : Type} (p : Parser α) : Parser (List Char) := fun input pos =>
  match p input pos with
  | (Except.ok _, pos') => (Except.ok [], pos')
  | (Except.error e, pos') => (Except.error e, pos')

/-- The character-by-character loop of `string`: on success return the final
cursor position, on the first mismatch return the position the cursor had
reached when the mismatch was seen. -/
def stringAux (input : List Char) : List Char → Nat → Except Nat Nat
  | [], pos => Except.ok pos
  | c :: cs, pos =>
    if readChar input pos = c then
      stringAux input cs (pos + 1)
    else
      Except.error pos

/-- `string(str)` from the source: match each character of `str` in order,
advancing after every match, throwing at the first mismatch with the cursor
left wherever the loop had advanced it. -/
def string (str : List Char) : Parser (List Char) := fun input pos =>
  match stringAux input str pos with
  | Except.ok pos' => (Except.ok str, pos')
  | Except.error pos' => (Except.error (ParseError.stringNotMatched str), pos')

/-- `back(parser)` from the source: snapshot the cursor; on failure restore
the snapshot and re-throw, on success pass the result through. -/
def back {α : Type} (p : Parser α) : Parser α := fun input pos =>
  match p input pos with
  | (Except.ok r, pos') => (Except.ok r, pos')
  | (Except.error e, _) => (Except.error e, pos)

/-- `peek(parser)` from the source: snapshot the cursor and restore it on
both success and failure, passing the result (or the failure) through. -/
def peek {α : Type} (p : Parser α) : Parser α := fun input pos =>
  match p input pos with
  | (Except.ok r, _) => (Except.ok r, pos)
  | (Except.error e, _) => (Except.error e, pos)

/-- `operator+` from the source: run `f`, then `g` from the cursor `f` left,
concatenating the results; either failure propagates with its cursor
effect. -/
def seq (f g : Parser (List Char)) : Parser (List Char) := fun input pos =>
  match f input pos with
  | (Except.ok r, pos') =>
    match g input pos' with
    | (Except.ok r', pos'') => (Except.ok (r ++ r'), pos'')
    | (Except.error e, pos'') => (Except.error e, pos'')
  | (Except.error e, pos') => (Except.error e, pos')

/-- `operator|` from the source: run `f`; if it throws, catch and run `g`
from the cursor position `f` left behind (the reference was mutated by `f`
before the throw, and no snapshot is taken). -/
def alt {α : Type} (f g : Parser α) : Parser α := fun input pos =>
  match f input pos with
  | (Except.ok r, pos') => (Except.ok r, pos')
  | (Except.error _, pos') => g input pos'

/-- Modelled from the spec: the specified behaviour of `rep(n, p)` — the
parser succeeds iff `p` succeeds `n` consecutive times, the results are
concatenated in order, and the first failure aborts the whole run,
keeping whatever cursor advancement the calls performed. -/
def repSpecModel : Nat → Parser (List Char) → Parser (List Char)
  | 0, _ => fun _ pos => (Except.ok [], pos)
  | n + 1, p => fun input pos =>
    match p input pos with
    | (Except.ok r, pos') =>
      match repSpecModel n p input pos' with
      | (Except.ok rest, q) => (Except.ok (r ++ rest), q)
      | (Except.error e, q) => (Except.error e, q)
    | (Except.error e, pos') => (Except.error e, pos')

/-- When every character of `s` agrees with the input read from `pos`
onwards, the matching loop of `string` succeeds and leaves the cursor
advanced by `s.length`. -/
theorem stringAux_ok_of_matches (input : List Char) :
    ∀ (s : List Char) (pos : Nat),
      (∀ i, i < s.length → readChar input (pos + i) = s.getD i '\x00') →
      stringAux input s pos = Except.ok (pos + s.length) := by
  intro s
  induction s with
  | nil => intro pos _; simp [stringAux]
  | cons c cs ih =>
    intro pos h
    have h0 : readChar input pos = c := by
      have := h 0 (Nat.succ_pos _)
      simpa using this
    have hrec : stringAux input cs (pos + 1) = Except.ok (pos + 1 + cs.length) := by
      apply ih
      intro i hi
      have := h (i + 1) (by simpa using Nat.succ_lt_succ hi)
      simpa [Nat.add_assoc, Nat.add_comm 1 i] using this
    simp [stringAux, h0, hrec]
    omega

/-- When the input agrees with the first `k` characters of `s` and disagrees
with character `k`, the matching loop of `string` fails with the cursor
advanced by exactly `k`. -/
theorem stringAux_error_of_partial (input : List Char) :
    ∀ (s : List Char) (pos k : Nat),
      k < s.length →
      (∀ i, i < k → readChar input (pos + i) = s.getD i '\x00') →
      readChar input (pos + k) ≠ s.getD k '\x00' →
      stringAux input s pos = Except.error (pos + k) := by
  intro s
  induction s with
  | nil => intro pos k hk; simp at hk
  | cons c cs ih =>
    intro pos k hk hm hd
    cases k with
    | zero =>
      have hne : readChar input pos ≠ c := by simpa using hd
      simp [stringAux, hne]
    | succ j =>
      have h0 : readChar input pos = c := by
        have := hm 0 (Nat.succ_pos _)
        simpa using this
      have hrec : stringAux input cs (pos + 1) = Except.error (pos + 1 + j) := by
        apply ih _ j (by simpa using Nat.lt_of_succ_lt_succ hk)
        · intro i hi
          have := hm (i + 1) (Nat.succ_lt_succ hi)
          simpa [Nat.add_assoc, Nat.add_comm 1 i] using this
        · have : pos + (j + 1) = pos + 1 + j := by omega
          simpa [this] using hd
      simp [stringAux, h0, hrec]
      omega

/-- Whenever the `while` loop of `many` terminates, the value it produces is
a success carrying the accumulated results. -/
theorem manyAux_isOk (p : Parser (List Char)) (input : List Char) :
    ∀ (fuel pos : Nat) (acc : List Char) (r : (Except ParseError (List Char)) × Nat),
      manyAux p input fuel pos acc = some r → ∃ v, r.1 = Except.ok v := by
  intro fuel
  induction fuel with
  | zero => intro pos acc r h; simp [manyAux] at h
  | succ n ih =>
    intro pos acc r h
    rw [manyAux] at h
    rcases hp : p input pos with ⟨res, pos'⟩
    cases res with
    | ok v => rw [hp] at h; exact ih pos' (acc ++ v) r h
    | error e =>
      rw [hp] at h
      simp at h
      exact ⟨acc, by rw [← h]⟩

/-- The accumulator-passing loop of `rep` computes the same function as the
direct recursion of the specified behaviour, with the accumulator prepended
on success. -/
theorem repAux_eq_spec (p : Parser (List Char)) (input : List Char) :
    ∀ (n pos : Nat) (acc : List Char),
      repAux p input n pos acc =
        match repSpecModel n p input pos with
        | (Except.ok r, q) => (Except.ok (acc ++ r), q)
        | (Except.error e, q) => (Except.error e, q) := by
  intro n
  induction n with
  | zero => intro pos acc; simp [repAux, repSpecModel]
  | succ m ih =>
    intro pos acc
    rw [repAux, repSpecModel]
    rcases hp : p input pos with ⟨res, pos'⟩
    cases res with
    | ok r =>
      simp only [hp, ih pos' (acc ++ r)]
      rcases hs : repSpecModel m p input pos' with ⟨res', q⟩
      cases res' <;> simp [hs]
    | error e => simp [hp]

/-- Claim C1: alternation performs no cursor rollback.  `f | g` returns the
result of `f` when `f` succeeds; when `f` fails, `g` is invoked from the
cursor position `f` left behind, not from the original position.  In
particular `string("ab") | string("ac")` on input `"ac"` fails overall,
because the first alternative consumes the matched `'a'` before failing and
the second alternative is then tried from the advanced position. -/
theorem alt_no_rollback :
    (∀ (α : Type) (f g : Parser α) (input : List Char) (pos pos' : Nat) (e : ParseError),
        f input pos = (Except.error e, pos') → alt f g input pos = g input pos') ∧
    (∀ (α : Type) (f g : Parser α) (input : List Char) (pos pos' : Nat) (r : α),
        f input pos = (Except.ok r, pos') → alt f g input pos = (Except.ok r, pos')) ∧
    alt (string ['a', 'b']) (string ['a', 'c']) ['a', 'c'] 0 =
      (Except.error (ParseError.stringNotMatched ['a', 'c']), 1) := by
  refine ⟨?_, ?_, by decide⟩
  · intro α f g input pos pos' e h
    simp [alt, h]
  · intro α f g input pos pos' r h
    simp [alt, h]

/-- Witness for C1: `string("b") | string("a")` on input `"a"`, where the
first alternative fails without consuming, resolves to the second
alternative run from position 0. -/
theorem alt_no_rollback_witness :
    alt (string ['b']) (string ['a']) ['a'] 0 = (Except.ok ['a'], 1) :=
  (alt_no_rollback.1 (List Char) (string ['b']) (string ['a']) ['a'] 0 0
    (ParseError.stringNotMatched ['b']) rfl).trans rfl

/-- Claim C2: atomicity of `satisfy`.  Over an input holding no sentinel
character, if the cursor is at the end of the sequence `satisfy` fails with
`endOfString` leaving the cursor unchanged; otherwise it succeeds, returns
the current character, and advances by exactly one iff the predicate holds
of it, and fails with `conditionUnsatisfied` leaving the cursor unchanged
iff the predicate does not hold. -/
theorem satisfy_atomic (p : Char → Bool) (input : List Char) (pos : Nat)
    (hnz : '\x00' ∉ input) :
    (input.length ≤ pos →
      satisfy p input pos = (Except.error ParseError.endOfString, pos)) ∧
    (pos < input.length →
      (p (readChar input pos) = true →
        satisfy p input pos = (Except.ok (readChar input pos), pos + 1)) ∧
      (p (readChar input pos) = false →
        satisfy p input pos = (Except.error ParseError.conditionUnsatisfied, pos))) := by
  constructor
  · intro hle
    have h0 : readChar input pos = '\x00' := List.getD_eq_default input '\x00' hle
    simp [satisfy, h0]
  · intro hlt
    have hne : readChar input pos ≠ '\x00' := by
      intro hcon
      apply hnz
      have hget : input.getD pos '\x00' = input[pos] := List.getD_eq_getElem input '\x00' hlt
      rw [readChar, hget] at hcon
      rw [← hcon]
      exact List.getElem_mem hlt
    constructor
    · intro htrue
      simp [satisfy, hne, htrue]
    · intro hfalse
      simp [satisfy, hne, hfalse]

/-- Witness for C2: `satisfy (· = 'a')` on input `"a"` at position 0
succeeds, returns `'a'` and advances to position 1. -/
theorem satisfy_atomic_witness :
    satisfy (fun c => decide (c = 'a')) ['a'] 0 = (Except.ok 'a', 1) :=
  ((satisfy_atomic (fun c => decide (c = 'a')) ['a'] 0 (by decide)).2
    (by decide)).1 (by decide)

/-- Claim C3: `back(p)` is atomic.  For every parser `p` and starting
position `x`: if `p` fails from `x`, `back(p)` fails from `x` with the
cursor restored to exactly `x`, however much `p` consumed; if `p` succeeds,
`back(p)` returns `p`'s result with the cursor exactly where `p` left
it. -/
theorem back_atomic {α : Type} (p : Parser α) (input : List Char) (x : Nat) :
    (∀ (e : ParseError) (pos' : Nat),
        p input x = (Except.error e, pos') → back p input x = (Except.error e, x)) ∧
    (∀ (r : α) (pos' : Nat),
        p input x = (Except.ok r, pos') → back p input x = (Except.ok r, pos')) := by
  constructor
  · intro e pos' h; simp [back, h]
  · intro r pos' h; simp [back, h]

/-- Witness for C3: `back(string("ab"))` on input `"ac"`, where the inner
parser consumes one character before failing, fails with the cursor back at
position 0. -/
theorem back_atomic_witness :
    back (string ['a', 'b']) ['a', 'c'] 0 =
      (Except.error (ParseError.stringNotMatched ['a', 'b']), 0) :=
  (back_atomic (string ['a', 'b']) ['a', 'c'] 0).1
    (ParseError.stringNotMatched ['a', 'b']) 1 rfl

/-- Claim C4: `peek(p)` never moves the cursor.  For every parser `p`, input
and position, the cursor after `peek p` equals the cursor before, and the
returned outcome (success value or failure) is exactly the outcome of
`p`. -/
theorem peek_cursor_unchanged {α : Type} (p : Parser α) (input : List Char) (pos : Nat) :
    (peek p input pos).2 = pos ∧ (peek p input pos).1 = (p input pos).1 := by
  rcases hp : p input pos with ⟨res, pos'⟩
  cases res <;> simp [peek, hp]

/-- Counterexample to C5 as stated: with `p = string("ab")` on input
`"ac"`, `p` fails on its first invocation (after consuming the matched
`'a'`), and `many(p)` returns the empty string with the cursor at
position 1 — not at the starting position 0 the claim requires. -/
theorem many_cursor_moved_counterexample :
    (string ['a', 'b'] ['a', 'c'] 0).1 =
      Except.error (ParseError.stringNotMatched ['a', 'b']) ∧
    many (string ['a', 'b']) 5 ['a', 'c'] 0 = some (Except.ok [], 1) ∧
    ¬ many (string ['a', 'b']) 5 ['a', 'c'] 0 = some (Except.ok [], 0) :=
  ⟨rfl, rfl, by decide⟩

/-- Claim C5 (amended): `many(p)` never fails — whenever its loop
terminates the outcome is a success — and on any input where `p` fails on
its first invocation, `many(p)` returns an empty string with the cursor
where that failing invocation left it (which is the starting position
exactly when `p` consumed nothing before failing). -/
theorem many_never_fails :
    (∀ (p : Parser (List Char)) (fuel : Nat) (input : List Char) (pos : Nat)
        (r : (Except ParseError (List Char)) × Nat),
        many p fuel input pos = some r → ∃ v, r.1 = Except.ok v) ∧
    (∀ (p : Parser (List Char)) (fuel : Nat) (input : List Char) (pos pos' : Nat)
        (e : ParseError),
        p input pos = (Except.error e, pos') →
        many p (fuel + 1) input pos = some (Except.ok [], pos')) := by
  constructor
  · intro p fuel input pos r h
    exact manyAux_isOk p input fuel pos [] r h
  · intro p fuel input pos pos' e h
    simp [many, manyAux, h]

/-- Witness for C5 (amended): `many(string("b"))` on input `"a"`, where the
inner parser fails at once without consuming, returns the empty string at
position 0. -/
theorem many_never_fails_witness :
    many (string ['b']) 1 ['a'] 0 = some (Except.ok [], 0) :=
  many_never_fails.2 (string ['b']) 0 ['a'] 0 0
    (ParseError.stringNotMatched ['b']) rfl

/-- Claim C6: partial-consumption law for `string`.  For a pattern of
length greater than one, on an input agreeing with the first `k` pattern
characters (`0 < k < length`) and disagreeing with character `k`,
`string` fails with the cursor advanced by exactly `k` — it is not
restored to the starting position. -/
theorem string_partial_consumption (s input : List Char) (pos k : Nat)
    (hlen : 1 < s.length) (hk0 : 0 < k) (hks : k < s.length)
    (hm : ∀ i, i < k → readChar input (pos + i) = s.getD i '\x00')
    (hd : readChar input (pos + k) ≠ s.getD k '\x00') :
    string s input pos =
      (Except.error (ParseError.stringNotMatched s), pos + k) := by
  have hloop := stringAux_error_of_partial input s pos k hks hm hd
  simp [string, hloop]

/-- Witness for C6: `string("ab")` on input `"ac"` fails with the cursor
advanced to position 1, past the matched `'a'`. -/
theorem string_partial_consumption_witness :
    string ['a', 'b'] ['a', 'c'] 0 =
      (Except.error (ParseError.stringNotMatched ['a', 'b']), 0 + 1) :=
  string_partial_consumption ['a', 'b'] ['a', 'c'] 0 1 (by decide) (by decide)
    (by decide) (by decide) (by decide)

/-- Claim C7: on an input whose characters from `pos` onwards agree with
every character of the pattern `s`, `string(s)` succeeds, returns `s`, and
advances the cursor by exactly `s.length`. -/
theorem string_full_match (s input : List Char) (pos : Nat)
    (hm : ∀ i, i < s.length → readChar input (pos + i) = s.getD i '\x00') :
    string s input pos = (Except.ok s, pos + s.length) := by
  have hloop := stringAux_ok_of_matches input s pos hm
  simp [string, hloop]

/-- Witness for C7: `string("ab")` on input `"abc"` succeeds, returning
`"ab"` with the cursor advanced to position 2. -/
theorem string_full_match_witness :
    string ['a', 'b'] ['a', 'b', 'c'] 0 = (Except.ok ['a', 'b'], 0 + 2) :=
  string_full_match ['a', 'b'] ['a', 'b', 'c'] 0 (by decide)

/-- Claim C8: `rep(n, p)` behaves exactly as specified — it succeeds iff
`p` succeeds `n` consecutive times from the start position, on success its
result is the concatenation of the `n` results in order, and on failure it
fails at the first failing invocation keeping all cursor advancement
(no rollback) — stated as equality with the specification model. -/
theorem rep_eq_repSpecModel (n : Nat) (p : Parser (List Char))
    (input : List Char) (pos : Nat) :
    rep n p input pos = repSpecModel n p input pos := by
  rw [rep, repAux_eq_spec p input n pos []]
  rcases hs : repSpecModel n p input pos with ⟨res, q⟩
  cases res <;> simp

/-- Claim C9: `string` has no end-of-sequence check of its own — its only
failure is a character mismatch (every error it returns is
`stringNotMatched`, never `endOfString`) — and a pattern ending in the
sentinel character matches the sentinel at the end of the input,
leaving the cursor one past the end of the sequence. -/
theorem string_no_eof_check :
    (∀ (s input : List Char) (pos : Nat),
        (∃ e, (string s input pos).1 = Except.error e) →
        (string s input pos).1 = Except.error (ParseError.stringNotMatched s)) ∧
    (∀ t : List Char,
        string (t ++ ['\x00']) t 0 = (Except.ok (t ++ ['\x00']), t.length + 1) ∧
        t.length < t.length + 1) := by
  constructor
  · intro s input pos h
    rcases h with ⟨e, he⟩
    cases hs : stringAux input s pos with
    | ok q => simp [string, hs] at he
    | error q => simp [string, hs]
  · intro t
    refine ⟨?_, Nat.lt_succ_self _⟩
    have hm : ∀ i, i < (t ++ ['\x00']).length →
        readChar t (0 + i) = (t ++ ['\x00']).getD i '\x00' := by
      intro i hi
      rw [Nat.zero_add]
      rcases Nat.lt_or_ge i t.length with hlt | hge
      · rw [readChar, List.getD_append _ _ _ _ hlt]
      · have hlen : i = t.length := by
          simp [List.length_append] at hi
          omega
        subst hlen
        rw [readChar, List.getD_eq_default t '\x00' (Nat.le_refl _),
          List.getD_append_right _ _ _ _ hge]
        simp
    have hloop := stringAux_ok_of_matches t (t ++ ['\x00']) 0 hm
    simp [string, hloop, List.length_append]

/-- Witness for C9: `string("a")` on input `"b"` fails, and its error is
the mismatch error `stringNotMatched`, not an end-of-input error. -/
theorem string_no_eof_check_witness :
    (string ['a'] ['b'] 0).1 = Except.error (ParseError.stringNotMatched ['a']) :=
  string_no_eof_check.1 ['a'] ['b'] 0 ⟨ParseError.stringNotMatched ['a'], rfl⟩

/-- Claim C10: `string` with the empty pattern succeeds on every input and
at every position, including at or past the end of the sequence, returning
the empty string with the cursor unchanged. -/
theorem string_empty_pattern (input : List Char) (pos : Nat) :
    string [] input pos = (Except.ok [], pos) := rfl

end Simparse
